import Mathlib

/-!
# Verification of the zipdefrag reconstruction pipeline

A shallow embedding, in Lean 4, of the core of the `zipdefrag` crate
(files `src/parser.rs`, `src/chunks.rs`, `src/analysis.rs`, `src/lib.rs`),
together with theorems settling the frozen claims about its specification.

Modelling conventions:

* Bytes are `Nat` values below 256; byte slices are `List Nat`.
* The nom parsers (`named!`/`do_parse!` chains in `parser.rs`) are embedded as
  functions `List Nat → Option (List Nat × α)`; `none` covers both nom's
  `Error` and `Incomplete` outcomes (every claim here only distinguishes
  success from failure).
* Rust `String` fields built by `take_str!` are modelled as the raw byte list
  (UTF-8 validity is enforced at parse time, exactly as `str::from_utf8` does;
  `as_bytes` on the Rust side returns the same bytes, so nothing is lost).
* Machine integers are `Nat` with explicit `% 2^w` where the code can wrap
  (`as u32`, `as u16` casts); `Int` is used where the Rust code computes a
  possibly negative `i32`/`i64` before casting.
* chrono's date arithmetic (documented conversion between calendar dates and
  Unix epoch seconds) is embedded via the standard civil-from-days /
  days-from-civil algorithms; `chrono::NaiveDate::from_ymd` panicking on an
  invalid calendar date is modelled by `chronoTimestamp` returning `none`.
-/

namespace ZipDefrag

/-- Little-endian 16-bit value of the first two bytes of a list
(the value nom's `le_u16` produces). Out-of-range positions default to 0;
the parsers only use this when at least two bytes are present. -/
def le16 (bs : List Nat) : Nat := bs.getD 0 0 + 256 * bs.getD 1 0

/-- Little-endian 32-bit value of the first four bytes of a list
(the value nom's `le_u32` produces). -/
def le32 (bs : List Nat) : Nat :=
  bs.getD 0 0 + 256 * bs.getD 1 0 + 65536 * bs.getD 2 0 + 16777216 * bs.getD 3 0

/-- UTF-8 validity of a byte sequence, following the checks performed by
Rust's `str::from_utf8` (`core::str::validations`): ASCII, the two- to
four-byte sequence ranges, rejection of overlong forms (`C0`/`C1`, `E0 80..`,
`F0 80..`), surrogates (`ED A0..`) and values above `U+10FFFF` (`F4 90..`,
`F5..FF`). `take_str!` in the parsers fails exactly when this is false. -/
def utf8Valid : List Nat → Bool
  | [] => true
  | b :: rest =>
    if b ≤ 0x7F then utf8Valid rest
    else if b < 0xC2 then false
    else if b ≤ 0xDF then
      match rest with
      | c1 :: r => (0x80 ≤ c1 && c1 ≤ 0xBF) && utf8Valid r
      | [] => false
    else if b ≤ 0xEF then
      match rest with
      | c1 :: c2 :: r =>
        (if b = 0xE0 then 0xA0 ≤ c1 && c1 ≤ 0xBF
         else if b = 0xED then 0x80 ≤ c1 && c1 ≤ 0x9F
         else 0x80 ≤ c1 && c1 ≤ 0xBF) &&
        (0x80 ≤ c2 && c2 ≤ 0xBF) && utf8Valid r
      | _ => false
    else if b ≤ 0xF4 then
      match rest with
      | c1 :: c2 :: c3 :: r =>
        (if b = 0xF0 then 0x90 ≤ c1 && c1 ≤ 0xBF
         else if b = 0xF4 then 0x80 ≤ c1 && c1 ≤ 0x8F
         else 0x80 ≤ c1 && c1 ≤ 0xBF) &&
        (0x80 ≤ c2 && c2 ≤ 0xBF) && (0x80 ≤ c3 && c3 ≤ 0xBF) && utf8Valid r
      | _ => false
    else false

/-- A byte-slice recogniser in the style of the nom combinators used by
`parser.rs`: consume a prefix of the input, returning the remainder and a
value, or fail (`none` covers nom's `Error` and `Incomplete`). -/
def BP (α : Type) : Type := List Nat → Option (List Nat × α)

/-- Sequencing of two recognisers, as generated by nom's `do_parse!`. -/
def pbind {α β : Type} (p : BP α) (f : α → BP β) : BP β := fun bs =>
  (p bs).bind fun r => f r.2 r.1

/-- Embed a pure value (the final tuple-builder of a `do_parse!` chain). -/
def ppure {α : Type} (a : α) : BP α := fun bs => some (bs, a)

/-- nom's `tag!`: match an exact byte string. Requiring `bs.take t.length = t`
covers both failure modes (`Incomplete` when the input is shorter than the
tag, `Error` on a mismatch). -/
def ptag (t : List Nat) : BP Unit := fun bs =>
  if bs.take t.length = t then some (bs.drop t.length, ()) else none

/-- nom's `le_u16`: read a little-endian u16, failing on short input. -/
def ple_u16 : BP Nat := fun bs =>
  if 2 ≤ bs.length then some (bs.drop 2, le16 bs) else none

/-- nom's `le_u32`: read a little-endian u32, failing on short input. -/
def ple_u32 : BP Nat := fun bs =>
  if 4 ≤ bs.length then some (bs.drop 4, le32 bs) else none

/-- nom's `take!`: consume exactly `n` bytes. -/
def ptake (n : Nat) : BP (List Nat) := fun bs =>
  if n ≤ bs.length then some (bs.drop n, bs.take n) else none

/-- nom's `take_str!`: consume `n` bytes and require them to be valid UTF-8
(`map_res!(take!(n), str::from_utf8)`); the value is kept as the byte list. -/
def ptake_str (n : Nat) : BP (List Nat) := fun bs =>
  if n ≤ bs.length then
    if utf8Valid (bs.take n) then some (bs.drop n, bs.take n) else none
  else none

/-- nom's `opt!(tag!(t))` as used for the optional data-descriptor magic:
when fewer than `t.length` bytes remain, `tag!` yields `Incomplete`, which
`opt!` propagates (overall failure); on a match the tag is consumed; on a
mismatch nothing is consumed. Returns whether the tag was consumed. -/
def popt_tag (t : List Nat) : BP Bool := fun bs =>
  if bs.length < t.length then none
  else if bs.take t.length = t then some (bs.drop t.length, true)
  else some (bs, false)

/-- nom's `verify!`: run a recogniser and fail unless the predicate holds. -/
def pverify {α : Type} (p : BP α) (f : α → Bool) : BP α := fun bs =>
  (p bs).bind fun r => if f r.2 then some r else none

/-! ## Calendar arithmetic (model of chrono's documented epoch conversion) -/

/-- Gregorian leap-year rule, as used by chrono. -/
def isLeap (y : Nat) : Bool := y % 4 == 0 && (y % 100 != 0 || y % 400 == 0)

/-- Number of days in a month (months numbered 1..12; 0 for anything else). -/
def daysInMonth (y m : Nat) : Nat :=
  match m with
  | 1 => 31 | 2 => if isLeap y then 29 else 28 | 3 => 31 | 4 => 30
  | 5 => 31 | 6 => 30 | 7 => 31 | 8 => 31 | 9 => 30 | 10 => 31
  | 11 => 30 | 12 => 31 | _ => 0

/-- Whether `(y, m, d)` is a real calendar date, i.e. exactly the condition
under which `chrono::NaiveDate::from_ymd(y, m, d)` succeeds rather than
panicking (for the year range reachable from a DOS date). -/
def isRealDate (y m d : Nat) : Bool :=
  1 ≤ m && m ≤ 12 && 1 ≤ d && d ≤ daysInMonth y m

/-- Days from 1970-01-01 to the calendar date `(y, m, d)`, for `y ≥ 1970`
(the standard days-from-civil computation; chrono's `NaiveDate::timestamp`
agrees with it on this range). -/
def daysFromCivil (y m d : Nat) : Nat :=
  let y1 := if m ≤ 2 then y - 1 else y
  let era := y1 / 400
  let yoe := y1 % 400
  let doy := (153 * (if 2 < m then m - 3 else m + 9) + 2) / 5 + d - 1
  let doe := yoe * 365 + yoe / 4 - yoe / 100 + doy
  era * 146097 + doe - 719468

/-- Calendar date for a day count since 1970-01-01 (the standard
civil-from-days computation, the inverse used by chrono's
`NaiveDateTime::from_timestamp`). Returns `(year, month, day)`. -/
def civilFromDays (z0 : Nat) : Nat × Nat × Nat :=
  let z := z0 + 719468
  let era := z / 146097
  let doe := z % 146097
  let yoe := (doe - doe / 1460 + doe / 36524 - doe / 146096) / 365
  let y := yoe + era * 400
  let doy := doe - (365 * yoe + yoe / 4 - yoe / 100)
  let mp := (5 * doy + 2) / 153
  let d := doy - (153 * mp + 2) / 5 + 1
  let m := if mp < 10 then mp + 3 else mp - 9
  (if m ≤ 2 then y + 1 else y, m, d)

/-- Seconds since the Unix epoch of `(y, m, d, h, mi, s)` when the date is a
real calendar date, `none` when `chrono::NaiveDate::from_ymd` would panic
(`parse_dosdatetime` calls it on `verify!`-filtered fields that may still
name an impossible date such as Feb 30 — see the C2 analysis). -/
def chronoTimestamp (y m d h mi s : Nat) : Option Nat :=
  if isRealDate y m d then some (86400 * daysFromCivil y m d + 3600 * h + 60 * mi + s)
  else none

/-! ## DOS time and date parsers (`parser.rs` lines 33-72) -/

/-- Hours field of a DOS time word: `(t >> 11) & 0x1f`. -/
def dosHour (t : Nat) : Nat := (t >>> 11) &&& 0x1f

/-- Minutes field of a DOS time word: `(t >> 5) & 0x3f`. -/
def dosMinute (t : Nat) : Nat := (t >>> 5) &&& 0x3f

/-- Seconds of a DOS time word: `2 * (t & 0x1f)`. -/
def dosSecond (t : Nat) : Nat := 2 * (t &&& 0x1f)

/-- Year of a DOS date word: `((d >> 9) & 0x7f) + 1980`. -/
def dosYear (d : Nat) : Nat := ((d >>> 9) &&& 0x7f) + 1980

/-- Month field of a DOS date word: `(d >> 5) & 0xf`. -/
def dosMonth (d : Nat) : Nat := (d >>> 5) &&& 0xf

/-- Day field of a DOS date word: `d & 0x1f`. -/
def dosDay (d : Nat) : Nat := d &&& 0x1f

/-- The `verify!` predicate of `parse_dostime`. -/
def dosTimeValid (t : Nat) : Bool :=
  dosHour t < 24 && dosMinute t < 60 && dosSecond t < 60

/-- The `verify!` predicate of `parse_dosdate` (`y ≥ 1970` is stated on an
`i32` in the source; the Nat embedding is faithful because the year field is
always at least 1980). -/
def dosDateValid (d : Nat) : Bool :=
  1970 ≤ dosYear d && dosMonth d ≤ 12 && 0 < dosMonth d && dosDay d ≤ 31 && 0 < dosDay d

/-- `parse_dostime` (`parser.rs` 33-45): read a le u16 and split it into an
`(hours, minutes, seconds)` triple, verified in range. -/
def parse_dostime : BP (Nat × Nat × Nat) :=
  pverify
    (pbind ple_u16 fun t => ppure (dosHour t, dosMinute t, dosSecond t))
    (fun hms => hms.1 < 24 && hms.2.1 < 60 && hms.2.2 < 60)

/-- `parse_dosdate` (`parser.rs` 47-59): read a le u16 and split it into a
`(year, month, day)` triple, verified in range. -/
def parse_dosdate : BP (Nat × Nat × Nat) :=
  pverify
    (pbind ple_u16 fun d => ppure (dosYear d, dosMonth d, dosDay d))
    (fun ymd =>
      1970 ≤ ymd.1 && ymd.2.1 ≤ 12 && 0 < ymd.2.1 && ymd.2.2 ≤ 31 && 0 < ymd.2.2)

/-- `parse_dosdatetime` (`parser.rs` 61-72): parse time then date, and convert
to a Unix epoch timestamp truncated to u32 (`.timestamp() as u32`). The
`none` produced when the fields do not name a real calendar date models the
panic of `chrono::NaiveDate::from_ymd` on such inputs; that panic outcome is
not a nom parse failure, and `parse_dosdatetime_panics` below distinguishes
exactly those inputs from the ones on which `none` is a genuine failure. -/
def parse_dosdatetime : BP Nat :=
  pbind parse_dostime fun t =>
  pbind parse_dosdate fun d =>
  fun bs =>
    (chronoTimestamp d.1 d.2.1 d.2.2 t.1 t.2.1 t.2.2).bind fun ts =>
      some (bs, ts % 4294967296)

/-! ## Header records and parsers (`chunks.rs` data model, `parser.rs` parsers) -/

/-- The union of all `ZipFlags` bits defined in `chunks.rs` lines 200-224
(`ENCRYPTED | MAXIMUM | FAST | SUPER_FAST | DATA_DESCRIPTOR |
ENHANCED_DEFLATE | PATCH_DATA | STRONG_ENCRYPTION | UTF | MASKED_CD_RECORDS`
= 0x0001|0x0002|0x0004|0x0006|0x0008|0x0010|0x0020|0x0040|0x0800|0x2000). -/
def zipFlagsMask : Nat := 0x287F

/-- The bitflags `ZipFlags::from_bits_truncate`: keep only the defined bits. -/
def zipFlagsFromBitsTruncate (b : Nat) : Nat := b &&& zipFlagsMask

/-- The `DATA_DESCRIPTOR` flag bit. -/
def dataDescriptorFlag : Nat := 0x0008

/-- End of Central Directory record (`chunks.rs` 179-198). -/
structure EOCD where
  dsk_no : Nat
  dsk_w_cd : Nat
  dsk_entries : Nat
  tot_entries : Nat
  cd_sz : Nat
  cd_offset : Nat
  cmt_len : Nat
  zip_cmt : List Nat
deriving DecidableEq, Repr

/-- Data Descriptor record (`chunks.rs` 426-435). -/
structure DD where
  crc32 : Nat
  z_sz : Nat
  u_sz : Nat
deriving DecidableEq, Repr

/-- Central Directory record (`chunks.rs` 226-264); `gp_flags` holds the
truncated bit pattern (`ZipFlags` is a plain u16 bitset). -/
structure CD where
  v_made_by : Nat
  v_needed : Nat
  gp_flags : Nat
  method : Nat
  timestamp : Nat
  dd : DD
  fn_len : Nat
  ef_len : Nat
  fc_len : Nat
  dsk_no_s : Nat
  int_attr : Nat
  ext_attr : Nat
  lf_offset : Nat
  filename : List Nat
deriving DecidableEq, Repr

/-- Local File header record (`chunks.rs` 346-370). -/
structure LF where
  v_needed : Nat
  gp_flags : Nat
  method : Nat
  timestamp : Nat
  dd : DD
  fn_len : Nat
  ef_len : Nat
  filename : List Nat
deriving DecidableEq, Repr

/-- The EOCD magic `PK\x05\x06`. -/
def eocdMagic : List Nat := [0x50, 0x4B, 0x05, 0x06]

/-- The CD magic `PK\x01\x02`. -/
def cdMagic : List Nat := [0x50, 0x4B, 0x01, 0x02]

/-- The LF magic `PK\x03\x04`. -/
def lfMagic : List Nat := [0x50, 0x4B, 0x03, 0x04]

/-- The stand-alone DD magic `PK\x07\x08`. -/
def ddMagic : List Nat := [0x50, 0x4B, 0x07, 0x08]

/-- `parse_eocd` (`parser.rs` 8-31). -/
def parse_eocd : BP EOCD :=
  pbind (ptag eocdMagic) fun _ =>
  pbind ple_u16 fun dsk_no =>
  pbind ple_u16 fun dsk_w_cd =>
  pbind ple_u16 fun dsk_entries =>
  pbind ple_u16 fun tot_entries =>
  pbind ple_u32 fun cd_sz =>
  pbind ple_u32 fun cd_offset =>
  pbind ple_u16 fun cmt_len =>
  pbind (ptake_str cmt_len) fun zip_cmt =>
  ppure { dsk_no, dsk_w_cd, dsk_entries, tot_entries, cd_sz, cd_offset, cmt_len, zip_cmt }

/-- `parse_dd` (`parser.rs` 137-152): optional magic, then crc, sizes. -/
def parse_dd : BP DD :=
  pbind (popt_tag ddMagic) fun _ =>
  pbind ple_u32 fun crc =>
  pbind ple_u32 fun z_sz =>
  pbind ple_u32 fun u_sz =>
  ppure { crc32 := crc, z_sz, u_sz }

/-- `parse_cd` (`parser.rs` 74-110). -/
def parse_cd : BP CD :=
  pbind (ptag cdMagic) fun _ =>
  pbind ple_u16 fun v_made_by =>
  pbind ple_u16 fun v_needed =>
  pbind ple_u16 fun gp_flags =>
  pbind ple_u16 fun method =>
  pbind parse_dosdatetime fun timestamp =>
  pbind parse_dd fun dd =>
  pbind ple_u16 fun fn_len =>
  pbind ple_u16 fun ef_len =>
  pbind ple_u16 fun fc_len =>
  pbind ple_u16 fun dsk_st =>
  pbind ple_u16 fun int_attr =>
  pbind ple_u32 fun ext_attr =>
  pbind ple_u32 fun lf_offset =>
  pbind (ptake_str fn_len) fun filename =>
  ppure { v_made_by, v_needed, gp_flags := zipFlagsFromBitsTruncate gp_flags, method,
          timestamp, dd, fn_len, ef_len, fc_len, dsk_no_s := dsk_st, int_attr,
          ext_attr, lf_offset, filename }

/-- `parse_lf` (`parser.rs` 112-135). -/
def parse_lf : BP LF :=
  pbind (ptag lfMagic) fun _ =>
  pbind ple_u16 fun v_needed =>
  pbind ple_u16 fun gp_flag =>
  pbind ple_u16 fun method =>
  pbind parse_dosdatetime fun timestamp =>
  pbind parse_dd fun dd =>
  pbind ple_u16 fun fn_len =>
  pbind ple_u16 fun ef_len =>
  pbind (ptake_str fn_len) fun filename =>
  ppure { v_needed, gp_flags := zipFlagsFromBitsTruncate gp_flag, method, timestamp,
          dd, fn_len, ef_len, filename }

/-! ## Re-serialisation (`chunks.rs` 372-452) -/

/-- `u16_to_le` (`chunks.rs` 372-374): `[(u & 0xff) as u8, (u >> 8) as u8]`. -/
def u16_to_le (u : Nat) : List Nat := [u % 256, (u / 256) % 256]

/-- `u32_to_le` (`chunks.rs` 376-383): four little-endian bytes. -/
def u32_to_le (u : Nat) : List Nat :=
  [u % 256, (u / 256) % 256, (u / 65536) % 256, (u / 16777216) % 256]

/-- `dostime_to_bytes` (`chunks.rs` 385-398): decompose a u32 epoch timestamp
with `NaiveDateTime::from_timestamp` and repack the DOS time and date words.
The year term is computed in `Int` because the source computes
`(datetime.year() - 1980) << 9` on `i32` (negative for years before 1980)
before casting through `u32` and `u16`. -/
def dostime_to_bytes (ts : Nat) : List Nat :=
  let days := ts / 86400
  let tod := ts % 86400
  let c := civilFromDays days
  let y := c.1
  let mo := c.2.1
  let d := c.2.2
  let h := tod / 3600
  let mi := tod % 3600 / 60
  let s := tod % 60
  let time := ((h <<< 11) ||| (mi <<< 5) ||| (s / 2)) % 65536
  let dateU32 := ((((y : Int) - 1980) * 512) % 4294967296).toNat
  let date := (dateU32 ||| (mo <<< 5) ||| d) % 65536
  u16_to_le time ++ u16_to_le date

/-- `DD::unparse` (`chunks.rs` 438-451): twelve little-endian bytes. -/
def DD.unparse (dd : DD) : List Nat :=
  u32_to_le dd.crc32 ++ u32_to_le dd.z_sz ++ u32_to_le dd.u_sz

/-- `LF::unparse` (`chunks.rs` 405-424): magic, fields, DOS datetime, DD (or
twelve zero bytes under the `DATA_DESCRIPTOR` flag), lengths, filename. -/
def LF.unparse (lf : LF) : List Nat :=
  lfMagic ++ u16_to_le lf.v_needed ++ u16_to_le lf.gp_flags ++ u16_to_le lf.method ++
  dostime_to_bytes lf.timestamp ++
  (if lf.gp_flags &&& dataDescriptorFlag = dataDescriptorFlag then
      List.replicate 12 0
    else lf.dd.unparse) ++
  u16_to_le lf.fn_len ++ u16_to_le lf.ef_len ++ lf.filename

/-! ## Byte positions of the variable-length string fields

These extraction functions mirror the fixed field layout consumed by the
parsers, so that theorems can speak about "the declared-length comment or
filename bytes" of a raw input slice. -/

/-- The comment length field of an EOCD slice (little-endian u16 at offset
20). -/
def eocdCmtLen (bs : List Nat) : Nat := le16 (bs.drop 20)

/-- The declared-length comment bytes of an EOCD slice (at offset 22). -/
def eocdCmtBytes (bs : List Nat) : List Nat := (bs.drop 22).take (eocdCmtLen bs)

/-- The declared-length filename bytes of a CD slice: the fixed fields before
the data descriptor span 16 bytes; the descriptor spans 16 bytes when its
optional magic is present and 12 otherwise; the five u16 and two u32 fields
after it span 18 bytes, with `fn_len` first. -/
def cdFnameBytes (bs : List Nat) : List Nat :=
  let skip := if (bs.drop 16).take 4 = ddMagic then 16 else 12
  (bs.drop (34 + skip)).take (le16 (bs.drop (16 + skip)))

/-- The declared-length filename bytes of an LF slice: fixed fields before
the data descriptor span 14 bytes; the descriptor 12 or 16; then `fn_len`
and `ef_len` (4 bytes) precede the filename. -/
def lfFnameBytes (bs : List Nat) : List Nat :=
  let skip := if (bs.drop 14).take 4 = ddMagic then 16 else 12
  (bs.drop (18 + skip)).take (le16 (bs.drop (14 + skip)))

/-- Whether `parse_dosdatetime` on this input reaches the panic of
`chrono::NaiveDate::from_ymd` (`parser.rs` 67): at least four bytes are
present, the DOS time and date words both pass their `verify!` ranges, but
the date fields name no real calendar date (e.g. February 30, claim C2). On
such inputs the process aborts; `parse_dosdatetime`'s `none` is a genuine
nom failure exactly when this predicate is `false`. -/
def parse_dosdatetime_panics (bs : List Nat) : Bool :=
  decide (4 ≤ bs.length) && dosTimeValid (le16 bs) && dosDateValid (le16 (bs.drop 2)) &&
  !(isRealDate (dosYear (le16 (bs.drop 2))) (dosMonth (le16 (bs.drop 2)))
      (dosDay (le16 (bs.drop 2))))

/-- Whether `parse_cd` reaches the `chrono` panic: the magic matches, the
four leading u16 fields are present (12 bytes in all), and the DOS datetime
at offset 12 panics. Execution reaches `parse_dosdatetime` exactly under the
first two conditions, and no construct before it can panic. -/
def parse_cd_panics (bs : List Nat) : Bool :=
  decide (bs.take 4 = cdMagic) && decide (12 ≤ bs.length) &&
  parse_dosdatetime_panics (bs.drop 12)

/-- Whether `parse_lf` reaches the `chrono` panic: the magic matches, the
three leading u16 fields are present (10 bytes in all), and the DOS datetime
at offset 10 panics. -/
def parse_lf_panics (bs : List Nat) : Bool :=
  decide (bs.take 4 = lfMagic) && decide (10 ≤ bs.length) &&
  parse_dosdatetime_panics (bs.drop 10)

/-! ## Fragmented file-system model (`chunks.rs`) -/

/-- A page of the fragmented file system (`chunks.rs` 34-41); the
`Range<usize>` of an assigned page is its two endpoints. -/
inductive Page
  | Assigned (start stop : Nat)
  | Unassigned
deriving DecidableEq, Repr

/-- `Page::contains` (`chunks.rs` 44-50). -/
def pageContains (p : Page) (addr : Nat) : Bool :=
  match p with
  | .Assigned s e => decide (s ≤ addr ∧ addr < e)
  | .Unassigned => false

/-- Whether some page of a list contains the address. -/
def pagesContain (l : List Page) (addr : Nat) : Bool := l.any (pageContains · addr)

/-- The page list built by `FragSys::from_file` (`chunks.rs` 470-479):
`pg_count = len / page_sz + (len % page_sz > 0)` pages, page `pg` covering
`pg * page_sz .. page_sz * (pg + 1)` (the stop is not clipped to `len`). -/
def fragsys_pages (len page_sz : Nat) : List Page :=
  let pg_count := len / page_sz + (if 0 < len % page_sz then 1 else 0)
  (List.range pg_count).map fun pg => Page.Assigned (pg * page_sz) (page_sz * (pg + 1))

/-- The `init_offs` computation of `ZipFile::new` (`chunks.rs` 82-88):
`eocd_pg_offs = ptr % ps`, `init_offs = ps - ((eocd_offs - eocd_pg_offs) % ps)`,
where `eocd_offs = cd_sz + cd_offset` is the archive end. The `usize`
subtraction is modelled with release-mode wrap-around (mod `2^64`). -/
def zipfile_init_offs (ptr eocd_offs ps : Nat) : Nat :=
  let eocd_pg_offs := ptr % ps
  ps - ((eocd_offs + (18446744073709551616 - eocd_pg_offs)) % 18446744073709551616 % ps)

/-- `ZipFile::assign_page` (`chunks.rs` 135-139): the guard is `idx <=
self.pages.len()`, so `idx = pages.len()` passes the guard and the write
`self.pages[idx] = page` indexes out of bounds; `none` models that panic. -/
def zipfile_assign_page (pages : List Page) (idx : Nat) (pg : Page) : Option (List Page) :=
  if idx ≤ pages.length then
    if idx < pages.length then some (pages.set idx pg) else none
  else some pages

/-! ## Signature scanning (`chunks.rs` 520-529 and 585-594) -/

/-- First index at which the byte pattern occurs as a window of the data,
i.e. `data.windows(pat.len()).position(|w| w == pat)` in the free
`find_bytes` (`chunks.rs` 588). -/
def positionWindow (data pat : List Nat) : Option Nat :=
  match data with
  | [] => if pat = [] then some 0 else none
  | _ :: tl =>
    if data.take pat.length = pat then some 0
    else (positionWindow tl pat).map (· + 1)

/-- Loop body of the free `find_bytes` (`chunks.rs` 585-594): find the next
window match from the cursor, record `ptr + cursor`, move the cursor past the
match. The fuel argument only serves termination; `data.length + 1` is always
enough for a non-empty pattern. -/
def fb_go (data pat : List Nat) : Nat → Nat → List Nat
  | _, 0 => []
  | cursor, fuel + 1 =>
    match positionWindow (data.drop cursor) pat with
    | none => []
    | some ptr => (ptr + cursor) :: fb_go data pat (cursor + ptr + pat.length) fuel

/-- The free function `find_bytes` (`chunks.rs` 585-594), used by the CD
discovery scans (`FragSys::find_cds` and `ZipFile::find_cds`). -/
def find_bytes (data pat : List Nat) : List Nat := fb_go data pat 0 (data.length + 1)

/-- The method `FragSys::find_bytes` (`chunks.rs` 520-529), used by the EOCD
and LF discovery scans: check every `i` in `0 .. data.len() - pat.len()`
(exclusive) against the four-byte window at `i`. For `data.len() <
pat.len()` the program panics — in debug the usize subtraction overflows, in
release it wraps and the slice `data[i..i + 4]` indexes out of bounds —
which `none` models. Otherwise (for the four-byte magic patterns the scans
pass) every window `data[i..i + 4]` with `i < len - 4` is in bounds and the
matching offsets are returned. -/
def fragSys_find_bytes (data pat : List Nat) : Option (List Nat) :=
  if data.length < pat.length then none
  else some ((List.range (data.length - pat.length)).filter fun i =>
    decide ((data.drop i).take 4 = pat))

/-- Modelled from the spec (4.A): scan the blob left to right; at each offset
check `blob[i..i+4] == pattern`; on a hit record the offset and advance the
cursor by `len(pattern)`, otherwise advance by one. Fuel as in `fb_go`. -/
def fa_go (data pat : List Nat) : Nat → Nat → List Nat
  | _, 0 => []
  | i, fuel + 1 =>
    if i + pat.length ≤ data.length then
      if (data.drop i).take pat.length = pat then
        i :: fa_go data pat (i + pat.length) fuel
      else fa_go data pat (i + 1) fuel
    else []

/-- Modelled from the spec (4.A): `find_all(blob, pattern)`, the ordered list
of non-overlapping match offsets. -/
def find_all_spec (data pat : List Nat) : List Nat := fa_go data pat 0 (data.length + 1)

/-! ## Driver control flow (`lib.rs` 43-175, `analysis.rs` 50-57) -/

/-- `ClusteringError` (`analysis.rs` 50-57). -/
inductive ClusteringError
  | Plain
  | Descriptive (msg : List Nat)
deriving DecidableEq, Repr

/-- Control-flow model of `rip_a_zip` (`lib.rs` 43-175) as a function of its
collaborators' outcomes: `fromFileOk` is whether `FragSys::from_file`
succeeded (propagated with `?`), `zipCount` the number of skeletons,
`clusterRes` the result of `CDInstance::cluster`, and `fileCreateOk` whether
the `File::create` calls succeed (propagated with `?`). The clustering
result is consumed only by `if let Ok(..) = ..` (line 64); when it is an
error the whole block is skipped and the function falls through to
`Ok("We Did it!")` (line 174). Returns the driver's result paired with the
number of `.zip` files written. -/
def rip_a_zip_model (fromFileOk : Bool) (zipCount : Nat)
    (clusterRes : Except ClusteringError Unit) (fileCreateOk : Bool) :
    Except String String × Nat :=
  if !fromFileOk then (Except.error ("from_file failed"), 0)
  else
    match clusterRes with
    | .error _ => (Except.ok ("We Did it!"), 0)
    | .ok _ =>
      if fileCreateOk then (Except.ok ("We Did it!"), zipCount)
      else (Except.error ("create failed"), 0)

/-! ## General lemmas about the combinators -/

theorem pbind_eq_some {α β : Type} {p : BP α} {f : α → BP β}
    {bs : List Nat} {r : List Nat × β} :
    pbind p f bs = some r ↔ ∃ a rest, p bs = some (rest, a) ∧ f a rest = some r := by
  unfold pbind
  rw [Option.bind_eq_some]
  constructor
  · rintro ⟨⟨rest, a⟩, h1, h2⟩
    exact ⟨a, rest, h1, h2⟩
  · rintro ⟨a, rest, h1, h2⟩
    exact ⟨(rest, a), h1, h2⟩

theorem ite_bind {α β : Type} {c : Prop} [inst : Decidable c] {a b : Option α}
    {f : α → Option β} :
    (if c then a else b).bind f = if c then a.bind f else b.bind f := by
  split <;> rfl

/-! ## Claim C1 — skeleton `init_offs` range -/

/-- Claim C1, counterexample: for the EOCD with `cd_sz = 0`, `cd_offset = 0`
(archive end `A = 0`) parsed at blob offset `ptr = 0` with page size
`ps = 1024`, the `init_offs` computed by `ZipFile::new` is `1024`, violating
the claimed bound `init_offs < ps` (the source lacks the outer `mod ps` the
spec prescribes). -/
theorem c1_counterexample : ¬ (zipfile_init_offs 0 0 1024 < 1024) := by decide

/-- Claim C1, amended: for every blob offset `ptr`, archive end `A` and page
size `ps > 0`, the `init_offs` computed by `ZipFile::new` satisfies
`0 < init_offs ≤ ps` (the value `ps` itself is reached, e.g. whenever the
archive end is page-aligned with the EOCD page offset). -/
theorem c1_amended (ptr A ps : Nat) (hps : 0 < ps) :
    0 < zipfile_init_offs ptr A ps ∧ zipfile_init_offs ptr A ps ≤ ps := by
  have h : (A + (18446744073709551616 - ptr % ps)) % 18446744073709551616 % ps < ps :=
    Nat.mod_lt _ hps
  show 0 < ps - ((A + (18446744073709551616 - ptr % ps)) % 18446744073709551616 % ps) ∧
      ps - ((A + (18446744073709551616 - ptr % ps)) % 18446744073709551616 % ps) ≤ ps
  omega

/-- Claim C1, witness: the amended bound instantiated at `ptr = 22`,
`A = 1000`, `ps = 1024`. -/
theorem c1_witness :
    0 < zipfile_init_offs 22 1000 1024 ∧ zipfile_init_offs 22 1000 1024 ≤ 1024 :=
  c1_amended 22 1000 1024 (by decide)

/-! ## Claim C2 — absence of panics -/

/-- Claim C2: the DOS date word `0x285E` (bytes `5E 28`) passes
`parse_dosdate`'s `verify!` predicate with fields `(2000, 2, 30)`, yet
February 30 is not a real calendar date, so `chrono::NaiveDate::from_ymd`
panics inside `parse_dosdatetime` (`parser.rs` line 67) on the four-byte
input `00 00 5E 28` — the core does panic on reachable input, contradicting
the claim; the embedding models that panic as `none`. -/
theorem c2_theorem :
    parse_dosdate [0x5E, 0x28] = some ([], (2000, 2, 30)) ∧
    isRealDate 2000 2 30 = false ∧
    parse_dosdatetime [0, 0, 0x5E, 0x28] = none := by decide

/-! ## Claim C3 — clustering failure handling -/

/-- Claim C3, counterexample: when `CDInstance::cluster` fails to converge,
`rip_a_zip` does not surface an error — the `if let Ok(..)` block is skipped
and the driver falls through to `Ok("We Did it!")` with zero archives
written. -/
theorem c3_counterexample :
    rip_a_zip_model true 1 (Except.error ClusteringError.Plain) true =
      (Except.ok ("We Did it!"), 0) := rfl

/-- Claim C3, amended: when k-means clustering fails to converge, no archives
are emitted beyond those already written (none are), but `rip_a_zip` returns
success (`Ok("We Did it!")`) rather than an error. -/
theorem c3_amended (e : ClusteringError) (zipCount : Nat) (fileCreateOk : Bool) :
    rip_a_zip_model true zipCount (Except.error e) fileCreateOk =
      (Except.ok ("We Did it!"), 0) := rfl

/-! ## Claim C9 — `assign_page` bounds handling -/

/-- Claim C9: `ZipFile::assign_page` guards with `idx <= self.pages.len()`
instead of `<`, so the out-of-bounds index `idx = pages.len()` passes the
guard and the write `self.pages[idx] = page` panics (modelled as `none`),
while indices strictly beyond the length are no-ops and in-bounds indices
write as claimed. -/
theorem c9_theorem :
    zipfile_assign_page [Page.Unassigned] 1 Page.Unassigned = none ∧
    zipfile_assign_page [Page.Unassigned] 2 Page.Unassigned = some [Page.Unassigned] ∧
    zipfile_assign_page [Page.Unassigned, Page.Unassigned] 0 (Page.Assigned 0 4) =
      some [Page.Assigned 0 4, Page.Unassigned] := by decide

/-! ## Claim C7 — page pool construction -/

theorem pg_count_eq_ceil (len ps : Nat) (hps : 0 < ps) :
    len / ps + (if 0 < len % ps then 1 else 0) = (len + ps - 1) / ps := by
  have hdm := Nat.div_add_mod len ps
  have hmlt : len % ps < ps := Nat.mod_lt _ hps
  have key : len + ps - 1 = ps * (len / ps) + (len % ps + ps - 1) := by omega
  rw [key, Nat.mul_add_div hps]
  rcases Nat.eq_zero_or_pos (len % ps) with h0 | hpos
  · rw [if_neg (by omega), h0]
    have : (0 + ps - 1) / ps = 0 := Nat.div_eq_of_lt (by omega)
    omega
  · rw [if_pos hpos]
    have : (len % ps + ps - 1) / ps = 1 := by
      apply Nat.div_eq_of_lt_le
      · omega
      · have : Nat.succ 1 * ps = 2 * ps := by omega
        omega
    omega

theorem fragsys_pages_contain_iff (len ps : Nat) (hps : 0 < ps) (a : Nat) :
    pagesContain (fragsys_pages len ps) a = true ↔
      a < (len / ps + (if 0 < len % ps then 1 else 0)) * ps := by
  unfold pagesContain fragsys_pages
  simp only [List.any_eq_true, List.mem_map, List.mem_range,
    exists_exists_and_eq_and, pageContains, decide_eq_true_eq]
  constructor
  · rintro ⟨pg, hpg, _, h2⟩
    have h3 : (pg + 1) * ps ≤ (len / ps + (if 0 < len % ps then 1 else 0)) * ps :=
      Nat.mul_le_mul_right ps hpg
    rw [Nat.mul_comm] at h2
    omega
  · intro ha
    refine ⟨a / ps, ?_, Nat.div_mul_le_self a ps, ?_⟩
    · exact (Nat.div_lt_iff_lt_mul hps).mpr ha
    · have hdm := Nat.div_add_mod a ps
      have hmlt : a % ps < ps := Nat.mod_lt _ hps
      rw [Nat.mul_succ]
      omega

/-- Claim C7, counterexample: for a blob of length 5 and page size 4, the
pool's last page is `Assigned 4 8` — its range ends at 8, past the blob end
5, and address 6 is covered even though it is outside `[0, 5)`; the claimed
exact coverage of `[0, N)` with a short last page fails. -/
theorem c7_counterexample :
    fragsys_pages 5 4 = [Page.Assigned 0 4, Page.Assigned 4 8] ∧
    pagesContain (fragsys_pages 5 4) 6 = true ∧ ¬ (6 < 5) := by decide

/-- Claim C7, amended: for every blob length and page size `ps > 0`,
`FragSys::from_file` produces exactly `ceil(len / ps)` `Assigned` pages whose
ranges together cover exactly `[0, ceil(len / ps) * ps)` — a superset of
`[0, len)`; when `len` is not a multiple of `ps` the last page is not short:
it extends past `len` to the next page boundary. -/
theorem c7_amended (len ps : Nat) (hps : 0 < ps) :
    (fragsys_pages len ps).length = (len + ps - 1) / ps ∧
    (∀ a, pagesContain (fragsys_pages len ps) a = true ↔
      a < ((len + ps - 1) / ps) * ps) ∧
    (∀ a, a < len → pagesContain (fragsys_pages len ps) a = true) := by
  have hceil := pg_count_eq_ceil len ps hps
  refine ⟨?_, ?_, ?_⟩
  · simp only [fragsys_pages, List.length_map, List.length_range]
    exact hceil
  · intro a
    rw [← hceil]
    exact fragsys_pages_contain_iff len ps hps a
  · intro a ha
    have hdm := Nat.div_add_mod len ps
    have hmlt : len % ps < ps := Nat.mod_lt _ hps
    have hle : len ≤ (len / ps + (if 0 < len % ps then 1 else 0)) * ps := by
      rcases Nat.eq_zero_or_pos (len % ps) with h0 | hp
      · rw [if_neg (by omega), Nat.add_zero, Nat.mul_comm]
        omega
      · rw [if_pos hp, Nat.add_mul, Nat.one_mul, Nat.mul_comm]
        omega
    rw [fragsys_pages_contain_iff len ps hps a]
    omega

/-- Claim C7, witness: the amended page count instantiated at blob length 5,
page size 4. -/
theorem c7_witness : 0 < 4 ∧ (fragsys_pages 5 4).length = (5 + 4 - 1) / 4 :=
  ⟨by decide, (c7_amended 5 4 (by decide)).1⟩

/-! ## Characterisation of `parse_eocd` -/

set_option maxHeartbeats 1600000 in
theorem parse_eocd_eq (bs : List Nat) :
    parse_eocd bs =
      if bs.take 4 = eocdMagic ∧ 22 + le16 (bs.drop 20) ≤ bs.length ∧
          utf8Valid ((bs.drop 22).take (le16 (bs.drop 20))) = true then
        some (((bs.drop 22).drop (le16 (bs.drop 20))),
          { dsk_no := le16 (bs.drop 4), dsk_w_cd := le16 (bs.drop 6),
            dsk_entries := le16 (bs.drop 8), tot_entries := le16 (bs.drop 10),
            cd_sz := le32 (bs.drop 12), cd_offset := le32 (bs.drop 16),
            cmt_len := le16 (bs.drop 20),
            zip_cmt := (bs.drop 22).take (le16 (bs.drop 20)) })
      else none := by
  simp only [parse_eocd, pbind, ptag, ple_u16, ple_u32, ptake_str, ppure,
    ite_bind, Option.some_bind, Option.none_bind, List.drop_drop, List.length_drop,
    show eocdMagic.length = 4 from rfl]
  norm_num [← Nat.add_assoc]
  by_cases hmagic : List.take 4 bs = eocdMagic
  · by_cases hcmt : 22 + le16 (List.drop 20 bs) ≤ bs.length
    · by_cases hutf : utf8Valid (List.take (le16 (List.drop 20 bs)) (List.drop 22 bs)) = true
      · rw [if_pos hmagic, if_pos (show 2 ≤ bs.length - 4 by omega),
            if_pos (show 2 ≤ bs.length - 4 - 2 by omega),
            if_pos (show 2 ≤ bs.length - 4 - 2 - 2 by omega),
            if_pos (show 2 ≤ bs.length - 4 - 2 - 2 - 2 by omega),
            if_pos (show 4 ≤ bs.length - 4 - 2 - 2 - 2 - 2 by omega),
            if_pos (show 4 ≤ bs.length - 4 - 2 - 2 - 2 - 2 - 4 by omega),
            if_pos (show 2 ≤ bs.length - 4 - 2 - 2 - 2 - 2 - 4 - 4 by omega),
            if_pos (show le16 (List.drop 20 bs) ≤ bs.length - 4 - 2 - 2 - 2 - 2 - 4 - 4 - 2 by
              omega),
            if_pos hutf, if_pos (show _ from And.intro hmagic (And.intro hcmt hutf))]
      · rw [if_pos hmagic, if_pos (show 2 ≤ bs.length - 4 by omega),
            if_pos (show 2 ≤ bs.length - 4 - 2 by omega),
            if_pos (show 2 ≤ bs.length - 4 - 2 - 2 by omega),
            if_pos (show 2 ≤ bs.length - 4 - 2 - 2 - 2 by omega),
            if_pos (show 4 ≤ bs.length - 4 - 2 - 2 - 2 - 2 by omega),
            if_pos (show 4 ≤ bs.length - 4 - 2 - 2 - 2 - 2 - 4 by omega),
            if_pos (show 2 ≤ bs.length - 4 - 2 - 2 - 2 - 2 - 4 - 4 by omega),
            if_pos (show le16 (List.drop 20 bs) ≤ bs.length - 4 - 2 - 2 - 2 - 2 - 4 - 4 - 2 by
              omega),
            if_neg hutf]
        have hnc : ¬(List.take 4 bs = eocdMagic ∧ 22 + le16 (List.drop 20 bs) ≤ bs.length ∧
            utf8Valid (List.take (le16 (List.drop 20 bs)) (List.drop 22 bs)) = true) :=
          fun h => hutf h.2.2
        rw [if_neg hnc]
    · have hnc : ¬(List.take 4 bs = eocdMagic ∧ 22 + le16 (List.drop 20 bs) ≤ bs.length ∧
          utf8Valid (List.take (le16 (List.drop 20 bs)) (List.drop 22 bs)) = true) :=
        fun h => hcmt h.2.1
      rw [if_neg hnc]
      by_cases h22 : 22 ≤ bs.length
      · rw [if_pos hmagic, if_pos (show 2 ≤ bs.length - 4 by omega),
            if_pos (show 2 ≤ bs.length - 4 - 2 by omega),
            if_pos (show 2 ≤ bs.length - 4 - 2 - 2 by omega),
            if_pos (show 2 ≤ bs.length - 4 - 2 - 2 - 2 by omega),
            if_pos (show 4 ≤ bs.length - 4 - 2 - 2 - 2 - 2 by omega),
            if_pos (show 4 ≤ bs.length - 4 - 2 - 2 - 2 - 2 - 4 by omega),
            if_pos (show 2 ≤ bs.length - 4 - 2 - 2 - 2 - 2 - 4 - 4 by omega),
            if_neg (show ¬(le16 (List.drop 20 bs) ≤ bs.length - 4 - 2 - 2 - 2 - 2 - 4 - 4 - 2) by
              omega)]
      · split_ifs <;> first | rfl | (exfalso; omega)
  · have hnc : ¬(List.take 4 bs = eocdMagic ∧ 22 + le16 (List.drop 20 bs) ≤ bs.length ∧
        utf8Valid (List.take (le16 (List.drop 20 bs)) (List.drop 22 bs)) = true) :=
      fun h => hmagic h.1
    rw [if_neg hmagic, if_neg hnc]

/-! ## Claim C4 — EOCD parse success condition -/

/-- Claim C4, counterexample: the 23-byte slice consisting of the EOCD magic,
sixteen zero bytes, comment length 1 and the single comment byte `0xFF`
starts with the magic and is at least `22 + cmt_len` bytes long, yet
`parse_eocd` fails, because `take_str!` rejects the non-UTF-8 comment — the
claimed "if and only if" is too weak. -/
theorem c4_counterexample :
    (([0x50, 0x4B, 0x05, 0x06] ++ List.replicate 16 0 ++ [1, 0] ++ [0xFF]).take 4 = eocdMagic ∧
      22 + le16 (([0x50, 0x4B, 0x05, 0x06] ++ List.replicate 16 0 ++ [1, 0] ++ [0xFF]).drop 20) ≤
        ([0x50, 0x4B, 0x05, 0x06] ++ List.replicate 16 0 ++ [1, 0] ++ [0xFF]).length) ∧
    parse_eocd ([0x50, 0x4B, 0x05, 0x06] ++ List.replicate 16 0 ++ [1, 0] ++ [0xFF]) = none := by
  decide

/-- Claim C4, amended: `parse_eocd` succeeds if and only if the slice starts
with `50 4B 05 06`, its length is at least `22 + cmt_len` (where `cmt_len` is
the little-endian u16 at offset 20), and additionally the `cmt_len` comment
bytes at offset 22 are valid UTF-8. -/
theorem c4_amended (bs : List Nat) :
    (parse_eocd bs).isSome = true ↔
      (bs.take 4 = eocdMagic ∧ 22 + eocdCmtLen bs ≤ bs.length ∧
        utf8Valid (eocdCmtBytes bs) = true) := by
  rw [parse_eocd_eq bs]
  unfold eocdCmtBytes eocdCmtLen
  by_cases h : bs.take 4 = eocdMagic ∧ 22 + le16 (bs.drop 20) ≤ bs.length ∧
      utf8Valid ((bs.drop 22).take (le16 (bs.drop 20))) = true
  · rw [if_pos h]
    simpa using h
  · rw [if_neg h]
    simpa using h

/-! ## Inversion lemmas for successful parses -/

theorem ptag_inv {t bs rest : List Nat} {u : Unit} (h : ptag t bs = some (rest, u)) :
    bs.take t.length = t ∧ rest = bs.drop t.length := by
  by_cases hc : bs.take t.length = t
  · rw [ptag, if_pos hc] at h
    cases h
    exact ⟨hc, rfl⟩
  · rw [ptag, if_neg hc] at h
    simp at h

theorem ple_u16_inv {bs rest : List Nat} {v : Nat} (h : ple_u16 bs = some (rest, v)) :
    2 ≤ bs.length ∧ rest = bs.drop 2 ∧ v = le16 bs := by
  by_cases hc : 2 ≤ bs.length
  · rw [ple_u16, if_pos hc] at h
    cases h
    exact ⟨hc, rfl, rfl⟩
  · rw [ple_u16, if_neg hc] at h
    simp at h

theorem ple_u32_inv {bs rest : List Nat} {v : Nat} (h : ple_u32 bs = some (rest, v)) :
    4 ≤ bs.length ∧ rest = bs.drop 4 ∧ v = le32 bs := by
  by_cases hc : 4 ≤ bs.length
  · rw [ple_u32, if_pos hc] at h
    cases h
    exact ⟨hc, rfl, rfl⟩
  · rw [ple_u32, if_neg hc] at h
    simp at h

theorem ptake_str_inv {n : Nat} {bs rest ws : List Nat}
    (h : ptake_str n bs = some (rest, ws)) :
    n ≤ bs.length ∧ utf8Valid (bs.take n) = true ∧ rest = bs.drop n ∧ ws = bs.take n := by
  by_cases hc : n ≤ bs.length
  · by_cases hu : utf8Valid (bs.take n) = true
    · rw [ptake_str, if_pos hc, if_pos hu] at h
      cases h
      exact ⟨hc, hu, rfl, rfl⟩
    · rw [ptake_str, if_pos hc, if_neg hu] at h
      simp at h
  · rw [ptake_str, if_neg hc] at h
    simp at h

theorem popt_tag_inv {t bs rest : List Nat} {b : Bool}
    (h : popt_tag t bs = some (rest, b)) :
    (bs.take t.length = t ∧ rest = bs.drop t.length ∧ b = true) ∨
      (bs.take t.length ≠ t ∧ rest = bs ∧ b = false) := by
  by_cases hlen : bs.length < t.length
  · rw [popt_tag, if_pos hlen] at h
    simp at h
  · by_cases hc : bs.take t.length = t
    · rw [popt_tag, if_neg hlen, if_pos hc] at h
      cases h
      exact Or.inl ⟨hc, rfl, rfl⟩
    · rw [popt_tag, if_neg hlen, if_neg hc] at h
      cases h
      exact Or.inr ⟨hc, rfl, rfl⟩

theorem pverify_inv {α : Type} {p : BP α} {f : α → Bool} {bs : List Nat}
    {x : List Nat × α} (h : pverify p f bs = some x) :
    p bs = some x ∧ f x.2 = true := by
  unfold pverify at h
  rw [Option.bind_eq_some] at h
  obtain ⟨r, h1, h2⟩ := h
  by_cases hf : f r.2 = true
  · rw [if_pos hf] at h2
    cases h2
    exact ⟨h1, hf⟩
  · rw [if_neg hf] at h2
    simp at h2

theorem parse_dosdatetime_inv {bs rest : List Nat} {ts : Nat}
    (h : parse_dosdatetime bs = some (rest, ts)) :
    4 ≤ bs.length ∧ rest = bs.drop 4 := by
  unfold parse_dosdatetime at h
  rw [pbind_eq_some] at h
  obtain ⟨t, r1, h1, h⟩ := h
  rw [pbind_eq_some] at h
  obtain ⟨d, r2, h2, h⟩ := h
  obtain ⟨h1p, _⟩ := pverify_inv h1
  rw [pbind_eq_some] at h1p
  obtain ⟨tv, rr, htv, hp⟩ := h1p
  obtain ⟨hlen1, hrr, _⟩ := ple_u16_inv htv
  cases hp
  obtain ⟨h2p, _⟩ := pverify_inv h2
  rw [pbind_eq_some] at h2p
  obtain ⟨dv, rr2, hdv, hp2⟩ := h2p
  obtain ⟨hlen2, hrr2, _⟩ := ple_u16_inv hdv
  cases hp2
  rw [Option.bind_eq_some] at h
  obtain ⟨v, _, hsome⟩ := h
  cases hsome
  subst hrr
  subst hrr2
  simp only [List.drop_drop, List.length_drop] at hlen2 ⊢
  exact ⟨by omega, by trivial⟩

theorem parse_dd_inv {bs rest : List Nat} {dd : DD} (h : parse_dd bs = some (rest, dd)) :
    (bs.take 4 = ddMagic ∧ rest = bs.drop 16) ∨
      (bs.take 4 ≠ ddMagic ∧ rest = bs.drop 12) := by
  unfold parse_dd at h
  rw [pbind_eq_some] at h
  obtain ⟨b, r0, h0, h⟩ := h
  rw [pbind_eq_some] at h
  obtain ⟨crc, r1, h1, h⟩ := h
  rw [pbind_eq_some] at h
  obtain ⟨zs, r2, h2, h⟩ := h
  rw [pbind_eq_some] at h
  obtain ⟨us, r3, h3, h⟩ := h
  cases h
  obtain ⟨_, hr1, _⟩ := ple_u32_inv h1
  obtain ⟨_, hr2, _⟩ := ple_u32_inv h2
  obtain ⟨_, hr3, _⟩ := ple_u32_inv h3
  subst hr1
  subst hr2
  subst hr3
  rcases popt_tag_inv h0 with ⟨hc, hr0, _⟩ | ⟨hc, hr0, _⟩ <;> subst hr0 <;>
    simp only [List.drop_drop, show ddMagic.length = 4 from rfl] at hc ⊢
  · exact Or.inl ⟨hc, by norm_num⟩
  · exact Or.inr ⟨hc, by norm_num⟩

theorem parse_cd_inv {bs r : List Nat} {cd : CD} (h : parse_cd bs = some (r, cd)) :
    cd.gp_flags = le16 (bs.drop 8) &&& zipFlagsMask ∧
    cd.filename = cdFnameBytes bs ∧ utf8Valid cd.filename = true := by
  unfold parse_cd at h
  rw [pbind_eq_some] at h
  obtain ⟨u, r0, htag, h⟩ := h
  rw [pbind_eq_some] at h
  obtain ⟨vmb, r1, h1, h⟩ := h
  rw [pbind_eq_some] at h
  obtain ⟨vn, r2, h2, h⟩ := h
  rw [pbind_eq_some] at h
  obtain ⟨gp, r3, h3, h⟩ := h
  rw [pbind_eq_some] at h
  obtain ⟨mth, r4, h4, h⟩ := h
  rw [pbind_eq_some] at h
  obtain ⟨ts, r5, h5, h⟩ := h
  rw [pbind_eq_some] at h
  obtain ⟨dd, r6, h6, h⟩ := h
  rw [pbind_eq_some] at h
  obtain ⟨fn, r7, h7, h⟩ := h
  rw [pbind_eq_some] at h
  obtain ⟨ef, r8, h8, h⟩ := h
  rw [pbind_eq_some] at h
  obtain ⟨fc, r9, h9, h⟩ := h
  rw [pbind_eq_some] at h
  obtain ⟨dsk, r10, h10, h⟩ := h
  rw [pbind_eq_some] at h
  obtain ⟨ia, r11, h11, h⟩ := h
  rw [pbind_eq_some] at h
  obtain ⟨ea, r12, h12, h⟩ := h
  rw [pbind_eq_some] at h
  obtain ⟨lo, r13, h13, h⟩ := h
  rw [pbind_eq_some] at h
  obtain ⟨fname, r14, h14, h⟩ := h
  simp only [ppure, Option.some.injEq, Prod.mk.injEq] at h
  obtain ⟨hr, hcd⟩ := h
  subst hcd
  obtain ⟨hmagic, hr0⟩ := ptag_inv htag
  obtain ⟨_, hr1, _⟩ := ple_u16_inv h1
  obtain ⟨_, hr2, _⟩ := ple_u16_inv h2
  obtain ⟨_, hr3, hgp⟩ := ple_u16_inv h3
  obtain ⟨_, hr4, _⟩ := ple_u16_inv h4
  obtain ⟨_, hr5⟩ := parse_dosdatetime_inv h5
  obtain ⟨_, hr7, hfn⟩ := ple_u16_inv h7
  obtain ⟨_, hr8, _⟩ := ple_u16_inv h8
  obtain ⟨_, hr9, _⟩ := ple_u16_inv h9
  obtain ⟨_, hr10, _⟩ := ple_u16_inv h10
  obtain ⟨_, hr11, _⟩ := ple_u16_inv h11
  obtain ⟨_, hr12, _⟩ := ple_u32_inv h12
  obtain ⟨_, hr13, _⟩ := ple_u32_inv h13
  obtain ⟨_, hut, hr14, hws⟩ := ptake_str_inv h14
  subst hr0
  subst hr1
  subst hr2
  subst hr3
  subst hr4
  subst hr5
  subst hgp
  subst hfn
  subst hws
  rcases parse_dd_inv h6 with ⟨hdm, hr6⟩ | ⟨hdm, hr6⟩ <;> subst hr6 <;>
    subst hr7 <;> subst hr8 <;> subst hr9 <;> subst hr10 <;> subst hr11 <;>
    subst hr12 <;> subst hr13 <;>
    simp only [List.drop_drop, show cdMagic.length = 4 from rfl] at hdm hut ⊢ <;>
    norm_num [← Nat.add_assoc] at hdm hut ⊢ <;>
    unfold cdFnameBytes zipFlagsFromBitsTruncate
  · rw [if_pos hdm]
    exact ⟨rfl, ⟨rfl, hut⟩⟩
  · rw [if_neg hdm]
    exact ⟨rfl, ⟨rfl, hut⟩⟩

theorem parse_lf_inv {bs r : List Nat} {lf : LF} (h : parse_lf bs = some (r, lf)) :
    lf.gp_flags = le16 (bs.drop 6) &&& zipFlagsMask ∧
    lf.filename = lfFnameBytes bs ∧ utf8Valid lf.filename = true := by
  unfold parse_lf at h
  rw [pbind_eq_some] at h
  obtain ⟨u, r0, htag, h⟩ := h
  rw [pbind_eq_some] at h
  obtain ⟨vn, r1, h1, h⟩ := h
  rw [pbind_eq_some] at h
  obtain ⟨gp, r2, h2, h⟩ := h
  rw [pbind_eq_some] at h
  obtain ⟨mth, r3, h3, h⟩ := h
  rw [pbind_eq_some] at h
  obtain ⟨ts, r4, h4, h⟩ := h
  rw [pbind_eq_some] at h
  obtain ⟨dd, r5, h5, h⟩ := h
  rw [pbind_eq_some] at h
  obtain ⟨fn, r6, h6, h⟩ := h
  rw [pbind_eq_some] at h
  obtain ⟨ef, r7, h7, h⟩ := h
  rw [pbind_eq_some] at h
  obtain ⟨fname, r8, h8, h⟩ := h
  simp only [ppure, Option.some.injEq, Prod.mk.injEq] at h
  obtain ⟨hr, hlf⟩ := h
  subst hlf
  obtain ⟨hmagic, hr0⟩ := ptag_inv htag
  obtain ⟨_, hr1, _⟩ := ple_u16_inv h1
  obtain ⟨_, hr2, hgp⟩ := ple_u16_inv h2
  obtain ⟨_, hr3, _⟩ := ple_u16_inv h3
  obtain ⟨_, hr4⟩ := parse_dosdatetime_inv h4
  obtain ⟨_, hr6, hfn⟩ := ple_u16_inv h6
  obtain ⟨_, hr7, _⟩ := ple_u16_inv h7
  obtain ⟨_, hut, hr8, hws⟩ := ptake_str_inv h8
  subst hr0
  subst hr1
  subst hr2
  subst hr3
  subst hr4
  subst hgp
  subst hfn
  subst hws
  rcases parse_dd_inv h5 with ⟨hdm, hr5⟩ | ⟨hdm, hr5⟩ <;> subst hr5 <;>
    subst hr6 <;> subst hr7 <;>
    simp only [List.drop_drop, show lfMagic.length = 4 from rfl] at hdm hut ⊢ <;>
    norm_num [← Nat.add_assoc] at hdm hut ⊢ <;>
    unfold lfFnameBytes zipFlagsFromBitsTruncate
  · rw [if_pos hdm]
    exact ⟨rfl, ⟨rfl, hut⟩⟩
  · rw [if_neg hdm]
    exact ⟨rfl, ⟨rfl, hut⟩⟩

/-! ## Claim C6 — general-purpose flag bits -/

/-- Claim C6, counterexample: an LF header whose `gp_flags` field is `0x0080`
(bit 7, not among the recognised bits) parses successfully, but the stored
`gp_flags` is `0` — `ZipFlags::from_bits_truncate` drops unknown bits rather
than preserving them. -/
theorem c6_counterexample :
    (parse_lf ([80, 75, 3, 4] ++ [0, 0, 0x80, 0, 0, 0] ++ [0, 0, 0x21, 0] ++
        List.replicate 12 0 ++ [0, 0, 0, 0])).map (fun p => p.2.gp_flags) = some 0 ∧
    le16 (([80, 75, 3, 4] ++ [0, 0, 0x80, 0, 0, 0] ++ [0, 0, 0x21, 0] ++
        List.replicate 12 0 ++ [0, 0, 0, 0]).drop 6) = 128 ∧ (0 : Nat) ≠ 128 := by
  decide

/-- Claim C6, amended: for every parsed CD or LF header, the stored
`gp_flags` equals the original 16-bit field masked to the recognised bitset
`0x287F` — recognised bits are preserved, unknown bits are cleared — and
`LF::unparse` emits exactly the stored (masked) value at byte offsets 6-7. -/
theorem c6_amended :
    (∀ (bs r : List Nat) (cd : CD), parse_cd bs = some (r, cd) →
        cd.gp_flags = le16 (bs.drop 8) &&& zipFlagsMask) ∧
    (∀ (bs r : List Nat) (lf : LF), parse_lf bs = some (r, lf) →
        lf.gp_flags = le16 (bs.drop 6) &&& zipFlagsMask) ∧
    (∀ lf : LF, ((LF.unparse lf).drop 6).take 2 = u16_to_le lf.gp_flags) := by
  refine ⟨?_, ?_, ?_⟩
  · intro bs r cd h
    exact (parse_cd_inv h).1
  · intro bs r lf h
    exact (parse_lf_inv h).1
  · intro lf
    simp [LF.unparse, lfMagic, u16_to_le]

/-- Claim C6, witness: the amended statement applied to a concrete LF header
whose flags word `0x2001` lies entirely inside the recognised bitset. -/
theorem c6_witness :
    ({ v_needed := 0, gp_flags := 8193, method := 0, timestamp := 315532800,
       dd := { crc32 := 0, z_sz := 0, u_sz := 0 }, fn_len := 0, ef_len := 0,
       filename := [] } : LF).gp_flags =
      le16 (([80, 75, 3, 4] ++ [0, 0, 1, 32, 0, 0] ++ [0, 0, 0x21, 0] ++
        List.replicate 12 0 ++ [0, 0, 0, 0]).drop 6) &&& zipFlagsMask :=
  c6_amended.2.1
    ([80, 75, 3, 4] ++ [0, 0, 1, 32, 0, 0] ++ [0, 0, 0x21, 0] ++
      List.replicate 12 0 ++ [0, 0, 0, 0]) [] _ (by decide)

/-! ## Claim C10 — non-UTF-8 strings abort the parse -/

/-- Claim C10, counterexample: an LF slice whose declared-length filename is
the single non-UTF-8 byte `0xFF` but whose DOS date word `0x285E`
(February 30, 2000) passes `verify!` without naming a real calendar date.
The filename is non-UTF-8, yet the program panics inside
`chrono::NaiveDate::from_ymd` (`parser.rs` 67) before `take_str!` ever
examines the filename, so the header is not "silently dropped" — the process
aborts. The claim as stated, quantified over every slice with a non-UTF-8
string field, is therefore false. -/
theorem c10_counterexample :
    utf8Valid (lfFnameBytes ([80, 75, 3, 4] ++ List.replicate 6 0 ++
      [0, 0, 0x5E, 0x28] ++ List.replicate 12 0 ++ [1, 0, 0, 0] ++ [255])) = false ∧
    parse_lf_panics ([80, 75, 3, 4] ++ List.replicate 6 0 ++
      [0, 0, 0x5E, 0x28] ++ List.replicate 12 0 ++ [1, 0, 0, 0] ++ [255]) = true := by
  decide

/-- Claim C10, amended: whenever the declared-length comment bytes of an EOCD
slice are not valid UTF-8, `parse_eocd` fails and the record is silently
dropped (no datetime precedes the comment, so no panic can intervene). For
CD and LF slices the same holds only for slices that do not first hit the
`chrono` panic on a `verify!`-passing non-real DOS date: under that
carve-out, a non-UTF-8 filename makes the parse fail (`take_str!` maps
`str::from_utf8`'s error to a parse failure) and the header is dropped; on
panicking slices the process aborts instead. -/
theorem c10_theorem :
    (∀ bs : List Nat, utf8Valid (eocdCmtBytes bs) = false → parse_eocd bs = none) ∧
    (∀ bs : List Nat, parse_cd_panics bs = false →
      utf8Valid (cdFnameBytes bs) = false → parse_cd bs = none) ∧
    (∀ bs : List Nat, parse_lf_panics bs = false →
      utf8Valid (lfFnameBytes bs) = false → parse_lf bs = none) := by
  refine ⟨?_, ?_, ?_⟩
  · intro bs hbad
    unfold eocdCmtBytes eocdCmtLen at hbad
    rw [parse_eocd_eq, if_neg]
    intro hc
    rw [hc.2.2] at hbad
    exact Bool.noConfusion hbad
  · intro bs _ hbad
    cases hp : parse_cd bs with
    | none => rfl
    | some pr =>
      obtain ⟨r, cd⟩ := pr
      obtain ⟨_, hfn, hut⟩ := parse_cd_inv hp
      rw [hfn] at hut
      rw [hut] at hbad
      exact Bool.noConfusion hbad
  · intro bs _ hbad
    cases hp : parse_lf bs with
    | none => rfl
    | some pr =>
      obtain ⟨r, lf⟩ := pr
      obtain ⟨_, hfn, hut⟩ := parse_lf_inv hp
      rw [hfn] at hut
      rw [hut] at hbad
      exact Bool.noConfusion hbad

/-- Claim C10, witness: three concrete headers whose comment or filename is
the single non-UTF-8 byte `0xFF` and whose CD/LF date word `0x0021` names
the real date 1980-01-01 (so neither slice panics); each parse fails. -/
theorem c10_witness :
    parse_eocd ([80, 75, 5, 6] ++ List.replicate 16 0 ++ [1, 0] ++ [255]) = none ∧
    parse_cd ([80, 75, 1, 2] ++ List.replicate 8 0 ++ [0, 0, 0x21, 0] ++
      List.replicate 12 0 ++ [1, 0] ++ List.replicate 8 0 ++
      List.replicate 8 0 ++ [255]) = none ∧
    parse_lf ([80, 75, 3, 4] ++ List.replicate 6 0 ++ [0, 0, 0x21, 0] ++
      List.replicate 12 0 ++ [1, 0, 0, 0] ++ [255]) = none :=
  ⟨c10_theorem.1 _ (by decide), c10_theorem.2.1 _ (by decide) (by decide),
    c10_theorem.2.2 _ (by decide) (by decide)⟩

/-! ## Lemmas about the signature scanners -/

theorem positionWindow_none {data pat : List Nat} (hp : 0 < pat.length)
    (h : positionWindow data pat = none) :
    ∀ j, (data.drop j).take pat.length ≠ pat := by
  induction data with
  | nil =>
    intro j hEq
    simp at hEq
    rw [hEq] at hp
    simp at hp
  | cons a tl ih =>
    unfold positionWindow at h
    by_cases hc : (a :: tl).take pat.length = pat
    · rw [if_pos hc] at h
      exact absurd h (by simp)
    · rw [if_neg hc] at h
      have htl : positionWindow tl pat = none := by
        cases hpw : positionWindow tl pat with
        | none => rfl
        | some q =>
          rw [hpw] at h
          simp at h
      intro j
      cases j with
      | zero => simpa using hc
      | succ j => simpa using ih htl j

theorem positionWindow_some {data pat : List Nat} {p : Nat}
    (h : positionWindow data pat = some p) :
    (data.drop p).take pat.length = pat ∧
      ∀ j, j < p → (data.drop j).take pat.length ≠ pat := by
  induction data generalizing p with
  | nil =>
    unfold positionWindow at h
    by_cases hc : pat = ([] : List Nat)
    · rw [if_pos hc] at h
      cases h
      subst hc
      exact ⟨by simp, fun j hj => absurd hj (Nat.not_lt_zero j)⟩
    · rw [if_neg hc] at h
      exact absurd h (by simp)
  | cons a tl ih =>
    unfold positionWindow at h
    by_cases hc : (a :: tl).take pat.length = pat
    · rw [if_pos hc] at h
      cases h
      exact ⟨by simpa using hc, fun j hj => absurd hj (Nat.not_lt_zero j)⟩
    · rw [if_neg hc] at h
      cases hpw : positionWindow tl pat with
      | none =>
        rw [hpw] at h
        simp at h
      | some q =>
        rw [hpw] at h
        simp at h
        obtain ⟨h1, h2⟩ := ih hpw
        subst h
        constructor
        · simpa using h1
        · intro j hj
          cases j with
          | zero => simpa using hc
          | succ j => simpa using h2 j (by omega)

theorem fa_go_eq_nil {data pat : List Nat} {cursor : Nat}
    (hnone : ∀ j, cursor ≤ j → (data.drop j).take pat.length ≠ pat) :
    ∀ fuel, fa_go data pat cursor fuel = [] := by
  intro fuel
  induction fuel generalizing cursor with
  | zero => rfl
  | succ fuel ih =>
    simp only [fa_go]
    by_cases h1 : cursor + pat.length ≤ data.length
    · rw [if_pos h1, if_neg (hnone cursor (Nat.le_refl _))]
      exact ih (fun j hj => hnone j (by omega))
    · rw [if_neg h1]

theorem fa_go_step (data pat : List Nat) (hplen : 0 < pat.length) {m : Nat}
    (hmatch : (data.drop m).take pat.length = pat)
    (hmlen : m + pat.length ≤ data.length) :
    ∀ fuel i, i ≤ m → (∀ j, i ≤ j → j < m → (data.drop j).take pat.length ≠ pat) →
      data.length + 1 - i ≤ fuel →
      fa_go data pat i fuel = m :: fa_go data pat (m + pat.length) (fuel - (m - i) - 1) := by
  intro fuel
  induction fuel with
  | zero =>
    intro i hi hno hf
    exfalso
    omega
  | succ fuel ih =>
    intro i hi hno hf
    rcases Nat.eq_or_lt_of_le hi with heq | hlt
    · subst heq
      simp only [fa_go]
      rw [if_pos hmlen, if_pos hmatch,
        show fuel + 1 - (i - i) - 1 = fuel from by omega]
    · simp only [fa_go]
      rw [if_pos (by omega), if_neg (hno i (Nat.le_refl _) hlt),
        ih (i + 1) (by omega) (fun j hj1 hj2 => hno j (by omega) hj2) (by omega),
        show fuel - (m - (i + 1)) - 1 = fuel + 1 - (m - i) - 1 from by omega]

theorem fb_go_eq_fa_go (data pat : List Nat) (hplen : 0 < pat.length) :
    ∀ fuel1 fuel2 cursor, data.length + 1 - cursor ≤ fuel1 →
      data.length + 1 - cursor ≤ fuel2 →
      fb_go data pat cursor fuel1 = fa_go data pat cursor fuel2 := by
  intro fuel1
  induction fuel1 with
  | zero =>
    intro fuel2 cursor h1 h2
    have hnone : ∀ j, cursor ≤ j → (data.drop j).take pat.length ≠ pat := by
      intro j hj hEq
      have hl := congrArg List.length hEq
      simp only [List.length_take, List.length_drop] at hl
      omega
    rw [fa_go_eq_nil hnone fuel2]
    rfl
  | succ fuel1 ih =>
    intro fuel2 cursor h1 h2
    simp only [fb_go]
    cases hpw : positionWindow (data.drop cursor) pat with
    | none =>
      have hn := positionWindow_none hplen hpw
      have hnone : ∀ j, cursor ≤ j → (data.drop j).take pat.length ≠ pat := by
        intro j hj
        have := hn (j - cursor)
        rw [List.drop_drop, show cursor + (j - cursor) = j from by omega] at this
        exact this
      rw [fa_go_eq_nil hnone fuel2]
    | some p =>
      obtain ⟨hmc, hmin⟩ := positionWindow_some hpw
      rw [List.drop_drop] at hmc
      have hmlen : cursor + p + pat.length ≤ data.length := by
        have hl := congrArg List.length hmc
        simp only [List.length_take, List.length_drop] at hl
        omega
      have hno : ∀ j, cursor ≤ j → j < cursor + p → (data.drop j).take pat.length ≠ pat := by
        intro j hj1 hj2
        have := hmin (j - cursor) (by omega)
        rw [List.drop_drop, show cursor + (j - cursor) = j from by omega] at this
        exact this
      rw [fa_go_step data pat hplen hmc hmlen fuel2 cursor (by omega) hno h2]
      show (p + cursor) :: fb_go data pat (cursor + p + pat.length) fuel1 =
        (cursor + p) :: fa_go data pat (cursor + p + pat.length)
          (fuel2 - (cursor + p - cursor) - 1)
      congr 1
      · omega
      · exact ih (fuel2 - (cursor + p - cursor) - 1) (cursor + p + pat.length)
          (by omega) (by omega)

/-! ## Claim C8 — signature scanning -/

/-- Claim C8, counterexample: the EOCD/LF discovery scan
(`FragSys::find_bytes`) iterates `i` over `0 .. len - 4` exclusive, so a
match sitting at the final possible offset is missed: on the four-byte blob
consisting exactly of the pattern the loop range is empty and no offsets are
returned (`some []`, no panic at this length) although offset 0 matches —
the claimed "exactly the ordered set of offsets" fails for the scans that
use the method. -/
theorem c8_counterexample :
    fragSys_find_bytes [80, 75, 5, 6] [80, 75, 5, 6] = some [] ∧
    (List.drop 0 [80, 75, 5, 6]).take 4 = [80, 75, 5, 6] := by decide

/-- Claim C8, amended: the free `find_bytes` used for CD discovery returns
exactly the spec's greedy non-overlapping scan (record a match, advance the
cursor by the pattern length, otherwise advance by one). The
`FragSys::find_bytes` method used for EOCD and LF discovery does not: on a
blob shorter than the four-byte pattern it panics (the usize subtraction at
`chunks.rs` 521 wraps and the slice `data[i..i + 4]` indexes out of bounds),
and on any longer blob it returns every matching offset `i` with
`i + 4 < len` — overlapping matches included and a match at the final
offset `len - 4` excluded. -/
theorem c8_amended :
    (∀ data pat : List Nat, pat.length = 4 →
      find_bytes data pat = find_all_spec data pat) ∧
    (∀ data pat : List Nat, pat.length = 4 → data.length < 4 →
      fragSys_find_bytes data pat = none) ∧
    (∀ (data pat res : List Nat) (i : Nat), pat.length = 4 →
      fragSys_find_bytes data pat = some res →
      (i ∈ res ↔ (i + pat.length < data.length ∧ (data.drop i).take 4 = pat))) := by
  refine ⟨?_, ?_, ?_⟩
  · intro data pat hp
    unfold find_bytes find_all_spec
    exact fb_go_eq_fa_go data pat (by omega) (data.length + 1) (data.length + 1) 0
      (by omega) (by omega)
  · intro data pat hp hlen
    unfold fragSys_find_bytes
    rw [if_pos (by omega)]
  · intro data pat res i hp hres
    unfold fragSys_find_bytes at hres
    by_cases hlen : data.length < pat.length
    · rw [if_pos hlen] at hres
      exact Option.noConfusion hres
    · rw [if_neg hlen] at hres
      obtain rfl := Option.some.inj hres
      simp only [List.mem_filter, List.mem_range, decide_eq_true_eq]
      constructor
      · rintro ⟨h1, h2⟩
        exact ⟨by omega, h2⟩
      · rintro ⟨h1, h2⟩
        exact ⟨by omega, h2⟩

/-- Claim C8, witness: the amended refinement applied to a concrete blob
holding two pattern occurrences. -/
theorem c8_witness :
    find_bytes [1, 80, 75, 5, 6, 80, 75, 5, 6] [80, 75, 5, 6] =
      find_all_spec [1, 80, 75, 5, 6, 80, 75, 5, 6] [80, 75, 5, 6] :=
  c8_amended.1 [1, 80, 75, 5, 6, 80, 75, 5, 6] [80, 75, 5, 6] (by decide)

/-! ## Lemmas for the DOS datetime round trip -/

theorem parse_dosdatetime_eval {b0 b1 b2 b3 : Nat}
    (htv : dosTimeValid (b0 + 256 * b1) = true)
    (hdv : dosDateValid (b2 + 256 * b3) = true)
    (hreal : isRealDate (dosYear (b2 + 256 * b3)) (dosMonth (b2 + 256 * b3))
        (dosDay (b2 + 256 * b3)) = true) :
    parse_dosdatetime [b0, b1, b2, b3] =
      some ([], (86400 * daysFromCivil (dosYear (b2 + 256 * b3)) (dosMonth (b2 + 256 * b3))
          (dosDay (b2 + 256 * b3)) + 3600 * dosHour (b0 + 256 * b1) +
          60 * dosMinute (b0 + 256 * b1) + dosSecond (b0 + 256 * b1)) % 4294967296) := by
  have h1 : ple_u16 [b0, b1, b2, b3] = some ([b2, b3], b0 + 256 * b1) := by
    unfold ple_u16
    rw [if_pos (by simp)]
    rfl
  have h2 : parse_dostime [b0, b1, b2, b3] =
      some ([b2, b3], (dosHour (b0 + 256 * b1), dosMinute (b0 + 256 * b1),
        dosSecond (b0 + 256 * b1))) := by
    unfold parse_dostime pverify pbind ppure
    rw [h1]
    simp only [Option.some_bind]
    rw [if_pos (by simpa [dosTimeValid] using htv)]
  have h3 : ple_u16 [b2, b3] = some ([], b2 + 256 * b3) := by
    unfold ple_u16
    rw [if_pos (by simp)]
    rfl
  have h4 : parse_dosdate [b2, b3] =
      some ([], (dosYear (b2 + 256 * b3), dosMonth (b2 + 256 * b3),
        dosDay (b2 + 256 * b3))) := by
    unfold parse_dosdate pverify pbind ppure
    rw [h3]
    simp only [Option.some_bind]
    rw [if_pos (by simpa [dosDateValid] using hdv)]
  unfold parse_dosdatetime pbind
  rw [h2]
  simp only [Option.some_bind]
  rw [h4]
  simp only [Option.some_bind]
  unfold chronoTimestamp
  rw [if_pos (by simpa using hreal)]
  simp only [Option.some_bind]

theorem or_eq_add {i a b : Nat} (h : b < 2 ^ i) : a * 2 ^ i ||| b = a * 2 ^ i + b := by
  rw [Nat.mul_comm]
  exact (Nat.mul_add_lt_is_or h a).symm

theorem timeWord_eq {t : Nat} (ht : t < 65536) :
    ((((t >>> 11) &&& 31) <<< 11) ||| (((t >>> 5) &&& 63) <<< 5) ||| (t &&& 31)) % 65536
      = t := by
  have e1 : (t >>> 11) &&& 31 = t / 2048 % 32 := by
    rw [Nat.shiftRight_eq_div_pow, show (31 : Nat) = 2 ^ 5 - 1 from rfl,
      Nat.and_pow_two_sub_one_eq_mod]
  have e2 : (t >>> 5) &&& 63 = t / 32 % 64 := by
    rw [Nat.shiftRight_eq_div_pow, show (63 : Nat) = 2 ^ 6 - 1 from rfl,
      Nat.and_pow_two_sub_one_eq_mod]
  have e3 : t &&& 31 = t % 32 := by
    rw [show (31 : Nat) = 2 ^ 5 - 1 from rfl, Nat.and_pow_two_sub_one_eq_mod]
  rw [e1, e2, e3, Nat.shiftLeft_eq, Nat.shiftLeft_eq]
  rw [or_eq_add (show (t / 32 % 64) * 2 ^ 5 < 2 ^ 11 by
    have h64 : t / 32 % 64 < 64 := Nat.mod_lt _ (by norm_num)
    norm_num
    omega)]
  rw [show (t / 2048 % 32) * 2 ^ 11 + (t / 32 % 64) * 2 ^ 5
      = ((t / 2048 % 32) * 2 ^ 6 + t / 32 % 64) * 2 ^ 5 by ring]
  rw [or_eq_add (show t % 32 < 2 ^ 5 from Nat.mod_lt _ (by norm_num))]
  norm_num
  omega

theorem dateWord_eq {dw : Nat} (hdw : dw < 65536) :
    ((((dw >>> 9) &&& 127) * 512) ||| (((dw >>> 5) &&& 15) <<< 5) ||| (dw &&& 31)) % 65536
      = dw := by
  have e1 : (dw >>> 9) &&& 127 = dw / 512 % 128 := by
    rw [Nat.shiftRight_eq_div_pow, show (127 : Nat) = 2 ^ 7 - 1 from rfl,
      Nat.and_pow_two_sub_one_eq_mod]
  have e2 : (dw >>> 5) &&& 15 = dw / 32 % 16 := by
    rw [Nat.shiftRight_eq_div_pow, show (15 : Nat) = 2 ^ 4 - 1 from rfl,
      Nat.and_pow_two_sub_one_eq_mod]
  have e3 : dw &&& 31 = dw % 32 := by
    rw [show (31 : Nat) = 2 ^ 5 - 1 from rfl, Nat.and_pow_two_sub_one_eq_mod]
  rw [e1, e2, e3, Nat.shiftLeft_eq, show (512 : Nat) = 2 ^ 9 from rfl]
  rw [or_eq_add (show (dw / 32 % 16) * 2 ^ 5 < 2 ^ 9 by
    have h16 : dw / 32 % 16 < 16 := Nat.mod_lt _ (by norm_num)
    norm_num
    omega)]
  rw [show (dw / 2 ^ 9 % 128) * 2 ^ 9 + (dw / 32 % 16) * 2 ^ 5
      = ((dw / 2 ^ 9 % 128) * 2 ^ 4 + dw / 32 % 16) * 2 ^ 5 by ring]
  rw [or_eq_add (show dw % 32 < 2 ^ 5 from Nat.mod_lt _ (by norm_num))]
  norm_num
  omega

set_option maxHeartbeats 4000000 in
theorem yoe_recover (yoe doy : Nat) (h1 : yoe ≤ 399)
    (h2 : doy ≤ 364 ∨ (doy = 365 ∧ (yoe + 1) % 4 = 0 ∧ ((yoe + 1) % 100 ≠ 0 ∨ yoe = 399))) :
    (yoe * 365 + yoe / 4 - yoe / 100 + doy - (yoe * 365 + yoe / 4 - yoe / 100 + doy) / 1460
      + (yoe * 365 + yoe / 4 - yoe / 100 + doy) / 36524
      - (yoe * 365 + yoe / 4 - yoe / 100 + doy) / 146096) / 365 = yoe ∧
    yoe * 365 + yoe / 4 - yoe / 100 + doy ≤ 146096 := by
  interval_cases yoe <;> omega

theorem isLeap_iff (y : Nat) :
    isLeap y = true ↔ (y % 4 = 0 ∧ (y % 100 ≠ 0 ∨ y % 400 = 0)) := by
  unfold isLeap
  simp [Bool.and_eq_true, beq_iff_eq, Bool.or_eq_true, bne_iff_ne]

theorem month_slice (y m d : Nat) (hm1 : 1 ≤ m) (hm2 : m ≤ 12) (hd1 : 1 ≤ d)
    (hd : d ≤ daysInMonth y m) :
    d ≤ 31 ∧
    (153 * (if 2 < m then m - 3 else m + 9) + 2) / 5 + d - 1 <
      (153 * ((if 2 < m then m - 3 else m + 9) + 1) + 2) / 5 ∧
    ((153 * (if 2 < m then m - 3 else m + 9) + 2) / 5 + d - 1 ≤ 364 ∨
      ((153 * (if 2 < m then m - 3 else m + 9) + 2) / 5 + d - 1 = 365 ∧ isLeap y = true)) := by
  rcases Bool.eq_false_or_eq_true (isLeap y) with hleap | hleap <;>
    interval_cases m <;>
    simp [daysInMonth, hleap] at hd <;>
    simp [hleap] <;>
    omega

set_option maxHeartbeats 1000000 in
theorem civilFromDays_inv (era yoe doy mp d : Nat)
    (hyoe : yoe ≤ 399) (hmp : mp ≤ 11) (hd1 : 1 ≤ d)
    (hdoyB : doy = (153 * mp + 2) / 5 + d - 1)
    (hub : doy < (153 * (mp + 1) + 2) / 5)
    (hdisj : doy ≤ 364 ∨ (doy = 365 ∧ (yoe + 1) % 4 = 0 ∧
      ((yoe + 1) % 100 ≠ 0 ∨ yoe = 399)))
    (hz : 719468 ≤ era * 146097 + (yoe * 365 + yoe / 4 - yoe / 100 + doy)) :
    civilFromDays (era * 146097 + (yoe * 365 + yoe / 4 - yoe / 100 + doy) - 719468) =
      (if (if mp < 10 then mp + 3 else mp - 9) ≤ 2 then yoe + era * 400 + 1
        else yoe + era * 400,
       if mp < 10 then mp + 3 else mp - 9, d) := by
  have hc := yoe_recover yoe doy hyoe hdisj
  simp only [civilFromDays]
  rw [show era * 146097 + (yoe * 365 + yoe / 4 - yoe / 100 + doy) - 719468 + 719468
      = era * 146097 + (yoe * 365 + yoe / 4 - yoe / 100 + doy) from by omega]
  rw [show (era * 146097 + (yoe * 365 + yoe / 4 - yoe / 100 + doy)) / 146097 = era from by
    have := hc.2
    omega]
  rw [show (era * 146097 + (yoe * 365 + yoe / 4 - yoe / 100 + doy)) % 146097
      = yoe * 365 + yoe / 4 - yoe / 100 + doy from by
    have := hc.2
    omega]
  rw [hc.1]
  rw [show yoe * 365 + yoe / 4 - yoe / 100 + doy - (365 * yoe + yoe / 4 - yoe / 100)
      = doy from by omega]
  rw [show (5 * doy + 2) / 153 = mp from by omega]
  rw [show doy - (153 * mp + 2) / 5 + 1 = d from by omega]

set_option maxHeartbeats 1000000 in
theorem civil_days_roundtrip {y m d : Nat} (hy1 : 1980 ≤ y) (hy2 : y ≤ 2107)
    (hm : 1 ≤ m) (hm2 : m ≤ 12) (hd : 1 ≤ d) (hd2 : d ≤ 31)
    (hreal : isRealDate y m d = true) :
    civilFromDays (daysFromCivil y m d) = (y, m, d) := by
  unfold isRealDate at hreal
  simp only [Bool.and_eq_true, decide_eq_true_eq] at hreal
  obtain ⟨⟨⟨hm1x, hm2x⟩, hd1x⟩, hdim⟩ := hreal
  obtain ⟨hd31, hub, hdisj⟩ := month_slice y m d hm1x hm2x hd1x hdim
  unfold daysFromCivil
  by_cases hm3 : m ≤ 2
  · rw [if_pos hm3, if_neg (show ¬ 2 < m by omega)]
    rw [if_neg (show ¬ 2 < m by omega)] at hub hdisj
    have hdisj2 : (153 * (m + 9) + 2) / 5 + d - 1 ≤ 364 ∨
        ((153 * (m + 9) + 2) / 5 + d - 1 = 365 ∧ ((y - 1) % 400 + 1) % 4 = 0 ∧
          (((y - 1) % 400 + 1) % 100 ≠ 0 ∨ (y - 1) % 400 = 399)) := by
      rcases hdisj with hA | ⟨hB, hL⟩
      · exact Or.inl hA
      · have hl := (isLeap_iff y).mp hL
        exact Or.inr ⟨hB, by omega, by omega⟩
    rw [civilFromDays_inv ((y - 1) / 400) ((y - 1) % 400)
      ((153 * (m + 9) + 2) / 5 + d - 1) (m + 9) d (by omega) (by omega) hd1x rfl
      hub hdisj2 (by omega)]
    rw [if_neg (show ¬ m + 9 < 10 by omega), show m + 9 - 9 = m from by omega,
      if_pos hm3]
    simp only [Prod.mk.injEq, and_true]
    omega
  · rw [if_neg hm3, if_pos (show 2 < m by omega)]
    rw [if_pos (show 2 < m by omega)] at hub hdisj
    have hdisj2 : (153 * (m - 3) + 2) / 5 + d - 1 ≤ 364 ∨
        ((153 * (m - 3) + 2) / 5 + d - 1 = 365 ∧ (y % 400 + 1) % 4 = 0 ∧
          ((y % 400 + 1) % 100 ≠ 0 ∨ y % 400 = 399)) := by
      rcases hdisj with hA | ⟨hB, hL⟩
      · exact Or.inl hA
      · exfalso
        omega
    rw [civilFromDays_inv (y / 400) (y % 400)
      ((153 * (m - 3) + 2) / 5 + d - 1) (m - 3) d (by omega) (by omega) hd1x rfl
      hub hdisj2 (by omega)]
    rw [if_pos (show m - 3 < 10 by omega), show m - 3 + 3 = m from by omega,
      if_neg hm3]
    simp only [Prod.mk.injEq, and_true]
    omega

/-! ## Claim C5 — DOS datetime round trip -/

/-- Claim C5, counterexample: the four bytes `00 00 21 FE` (time 0:0:0, date
word `0xFE21` = 2107-01-01) satisfy the DOS validity predicate, but the
epoch timestamp of 2107-01-01 exceeds `2^32`, so the `as u32` cast in
`parse_dosdatetime` wraps it to 28315904 (a 1970 date) and re-encoding yields
`F6 8B 78 ED`, not the original bytes. -/
theorem c5_counterexample :
    dosTimeValid (le16 [0, 0]) = true ∧ dosDateValid (le16 [0x21, 0xFE]) = true ∧
    (parse_dosdatetime [0, 0, 0x21, 0xFE]).map (fun p => dostime_to_bytes p.2) =
      some [246, 139, 120, 237] ∧
    ([246, 139, 120, 237] : List Nat) ≠ [0, 0, 0x21, 0xFE] := by decide

/-- Claim C5, amended: for every 4-byte input that satisfies the DOS validity
predicate AND names a real calendar date (so `chrono::from_ymd` does not
panic — see C2) AND whose epoch timestamp fits in u32 (dates up to early
2106), re-encoding the parsed timestamp with `dostime_to_bytes` reproduces
the original four bytes exactly. -/
theorem c5_amended (b0 b1 b2 b3 : Nat) (hb0 : b0 < 256) (hb1 : b1 < 256)
    (hb2 : b2 < 256) (hb3 : b3 < 256)
    (htv : dosTimeValid (b0 + 256 * b1) = true)
    (hdv : dosDateValid (b2 + 256 * b3) = true)
    (hreal : isRealDate (dosYear (b2 + 256 * b3)) (dosMonth (b2 + 256 * b3))
        (dosDay (b2 + 256 * b3)) = true)
    (hfit : 86400 * daysFromCivil (dosYear (b2 + 256 * b3)) (dosMonth (b2 + 256 * b3))
        (dosDay (b2 + 256 * b3)) + 3600 * dosHour (b0 + 256 * b1) +
        60 * dosMinute (b0 + 256 * b1) + dosSecond (b0 + 256 * b1) < 4294967296) :
    (parse_dosdatetime [b0, b1, b2, b3]).map (fun p => dostime_to_bytes p.2) =
      some [b0, b1, b2, b3] := by
  rw [parse_dosdatetime_eval htv hdv hreal]
  rw [Nat.mod_eq_of_lt hfit]
  simp only [Option.map_some', Option.some.injEq]
  unfold dosTimeValid at htv
  unfold dosDateValid at hdv
  simp only [Bool.and_eq_true, decide_eq_true_eq] at htv hdv
  obtain ⟨⟨hH, hMI⟩, hS⟩ := htv
  have htod : 3600 * dosHour (b0 + 256 * b1) + 60 * dosMinute (b0 + 256 * b1) +
      dosSecond (b0 + 256 * b1) < 86400 := by omega
  simp only [dostime_to_bytes]
  rw [show (86400 * daysFromCivil (dosYear (b2 + 256 * b3)) (dosMonth (b2 + 256 * b3))
        (dosDay (b2 + 256 * b3)) + 3600 * dosHour (b0 + 256 * b1) +
        60 * dosMinute (b0 + 256 * b1) + dosSecond (b0 + 256 * b1)) / 86400
      = daysFromCivil (dosYear (b2 + 256 * b3)) (dosMonth (b2 + 256 * b3))
        (dosDay (b2 + 256 * b3)) from by omega]
  rw [show (86400 * daysFromCivil (dosYear (b2 + 256 * b3)) (dosMonth (b2 + 256 * b3))
        (dosDay (b2 + 256 * b3)) + 3600 * dosHour (b0 + 256 * b1) +
        60 * dosMinute (b0 + 256 * b1) + dosSecond (b0 + 256 * b1)) % 86400
      = 3600 * dosHour (b0 + 256 * b1) + 60 * dosMinute (b0 + 256 * b1) +
        dosSecond (b0 + 256 * b1) from by omega]
  have hfield : (b2 + 256 * b3) >>> 9 &&& 127 ≤ 127 := Nat.and_le_right
  have hciv : civilFromDays (daysFromCivil (dosYear (b2 + 256 * b3))
      (dosMonth (b2 + 256 * b3)) (dosDay (b2 + 256 * b3)))
      = (dosYear (b2 + 256 * b3), dosMonth (b2 + 256 * b3), dosDay (b2 + 256 * b3)) := by
    apply civil_days_roundtrip
    · unfold dosYear
      omega
    · unfold dosYear
      omega
    · omega
    · omega
    · omega
    · omega
    · exact hreal
  rw [hciv]
  dsimp only
  rw [show (3600 * dosHour (b0 + 256 * b1) + 60 * dosMinute (b0 + 256 * b1) +
        dosSecond (b0 + 256 * b1)) / 3600 = dosHour (b0 + 256 * b1) from by omega]
  rw [show (3600 * dosHour (b0 + 256 * b1) + 60 * dosMinute (b0 + 256 * b1) +
        dosSecond (b0 + 256 * b1)) % 3600 / 60 = dosMinute (b0 + 256 * b1) from by omega]
  rw [show (3600 * dosHour (b0 + 256 * b1) + 60 * dosMinute (b0 + 256 * b1) +
        dosSecond (b0 + 256 * b1)) % 60 = dosSecond (b0 + 256 * b1) from by omega]
  rw [show dosSecond (b0 + 256 * b1) / 2 = (b0 + 256 * b1) &&& 31 from by
    unfold dosSecond; omega]
  unfold dosHour dosMinute
  rw [timeWord_eq (show b0 + 256 * b1 < 65536 by omega)]
  rw [show (((((dosYear (b2 + 256 * b3) : Nat) : Int) - 1980) * 512) % 4294967296).toNat
      = ((b2 + 256 * b3) >>> 9 &&& 127) * 512 from by
    unfold dosYear
    push_cast
    simp only [add_sub_cancel_right]
    rw [Int.emod_eq_of_lt (by positivity) (by omega)]
    omega]
  unfold dosMonth dosDay
  rw [dateWord_eq (show b2 + 256 * b3 < 65536 by omega)]
  unfold u16_to_le
  simp only [List.cons_append, List.nil_append, List.cons.injEq, and_true]
  refine ⟨by omega, by omega, by omega, by omega⟩

/-- Claim C5, witness: the amended round trip applied to the repository test
vector `69 8C 9D 48` (2016-04-29 17:35:18). -/
theorem c5_witness :
    (parse_dosdatetime [105, 140, 157, 72]).map (fun p => dostime_to_bytes p.2) =
      some [105, 140, 157, 72] :=
  c5_amended 105 140 157 72 (by decide) (by decide) (by decide) (by decide)
    (by decide) (by decide) (by decide) (by decide)

end ZipDefrag

